import Mathlib

/-!
Verification development for the sunbeam manifest subsystem
(`sunbeam/core/manifest.py` and `sunbeam/features/caas/feature.py`).

Parsed YAML / Python dict values are modelled by the inductive `Value`
(association lists for mappings, mirroring insertion-ordered dicts),
fallible operations return `Except`, and the `AddManifestStep` methods
are modelled as pure functions over explicit inputs describing the file
system reads and the cluster store responses.
-/

namespace Sunbeam

/-- A parsed YAML / Python value: scalars, lists and string-keyed mappings. -/
inductive Value where
  | str : String → Value
  | num : Int → Value
  | bool : Bool → Value
  | list : List Value → Value
  | map : List (String × Value) → Value
deriving Repr

mutual

/-- Structural equality of `Value`s, the model of Python `==` on parsed YAML. -/
def Value.beq : Value → Value → Bool
  | .str a, .str b => a == b
  | .num a, .num b => a == b
  | .bool a, .bool b => a == b
  | .list a, .list b => Value.beqList a b
  | .map a, .map b => Value.beqEntries a b
  | _, _ => false

def Value.beqList : List Value → List Value → Bool
  | [], [] => true
  | a :: as, b :: bs => Value.beq a b && Value.beqList as bs
  | _, _ => false

def Value.beqEntries : List (String × Value) → List (String × Value) → Bool
  | [], [] => true
  | (k, v) :: as, (l, w) :: bs => k == l && Value.beq v w && Value.beqEntries as bs
  | _, _ => false

end

/-- Key lookup in an association list (first match wins), the model of
Python `dict` lookup. -/
def alookup {α : Type} (k : String) : List (String × α) → Option α
  | [] => none
  | (k', v) :: rest => if k = k' then some v else alookup k rest

/-- The keys of an association list, in insertion order. -/
def keys {α : Type} (l : List (String × α)) : List String :=
  l.map Prod.fst

/-- Whether a value is a mapping (a Python `dict`). -/
def Value.isMap : Value → Bool
  | .map _ => true
  | _ => false

/-- Python `d[k] = v`: replace the value in place if `k` is present,
append a fresh entry otherwise. -/
def setKey {α : Type} (k : String) (v : α) : List (String × α) → List (String × α)
  | [] => [(k, v)]
  | (k', v') :: rest => if k = k' then (k, v) :: rest else (k', v') :: setKey k v rest

mutual

/-- Modelled from the spec: `sunbeam.utils.merge_dict` (the Merge Engine of
§4.1), whose source file is not part of this extract.  Keys present in only
one operand are carried through; for keys present in both, two mappings are
merged recursively and any other override value replaces the base value. -/
def mergeValue : Value → Value → Value
  | Value.map b, Value.map o =>
      Value.map (mergeBase o b ++ o.filter (fun p => (alookup p.1 b).isNone))
  | _, o => o

/-- The base-side entries of a mapping merge: every entry of the base,
combined with the override entry of the same key when there is one. -/
def mergeBase (o : List (String × Value)) : List (String × Value) → List (String × Value)
  | [] => []
  | (k, v) :: rest =>
      (match alookup k o with
       | some w => (k, mergeValue v w)
       | none => (k, v)) :: mergeBase o rest

end

/-- Merge of two mappings, entry level (what `merge_dict` does to dicts). -/
def mergeEntries (b o : List (String × Value)) : List (String × Value) :=
  mergeBase o b ++ o.filter (fun p => (alookup p.1 b).isNone)

mutual

/-- Well-formedness of a value as a Python object: every mapping in it has
pairwise distinct keys (as every Python `dict` does). -/
def wfValue : Value → Bool
  | .str _ => true
  | .num _ => true
  | .bool _ => true
  | .list vs => wfList vs
  | .map l => decide ((keys l).Nodup) && wfEntries l

def wfList : List Value → Bool
  | [] => true
  | v :: vs => wfValue v && wfList vs

def wfEntries : List (String × Value) → Bool
  | [] => true
  | (_, v) :: rest => wfValue v && wfEntries rest

end

/-! ### The dump-level configuration model used by `merge`

`SoftwareConfig.merge` (manifest.py lines 159-171) works on the
`model_dump()` images of the pydantic sub-models and on the `charms`,
`terraform` and `extra` dicts, combining each with `merge_dict` applied
to deep copies (deep copying is the identity in this value model). -/

structure SoftwareConfigM where
  juju : List (String × Value) := []
  charms : List (String × Value) := []
  terraform : List (String × Value) := []
  extra : List (String × Value) := []

/-- `SoftwareConfig.merge` (manifest.py lines 159-171): each component is
combined with the merge engine; the result is a freshly built config. -/
def SoftwareConfigM.merge (self other : SoftwareConfigM) : SoftwareConfigM :=
  { juju := mergeEntries self.juju other.juju
    charms := mergeEntries self.charms other.charms
    terraform := mergeEntries self.terraform other.terraform
    extra := mergeEntries self.extra other.extra }

structure ManifestM where
  deployment : List (String × Value) := []
  software : SoftwareConfigM := {}

/-- `Manifest.merge` (manifest.py lines 200-207). -/
def ManifestM.merge (self other : ManifestM) : ManifestM :=
  { deployment := mergeEntries self.deployment other.deployment
    software := self.software.merge other.software }

/-- Well-formedness of a dump-level software config (all dicts). -/
def wfSoftwareConfigM (c : SoftwareConfigM) : Bool :=
  wfValue (.map c.juju) && wfValue (.map c.charms) &&
    wfValue (.map c.terraform) && wfValue (.map c.extra)

/-- Well-formedness of a dump-level manifest. -/
def wfManifestM (m : ManifestM) : Bool :=
  wfValue (.map m.deployment) && wfSoftwareConfigM m.software

/-! ### The typed configuration model (manifest.py lines 50-211) -/

structure JujuManifest where
  bootstrap_args : List String := []
  scale_args : List String := []

structure CharmManifest where
  channel : Option String := none
  revision : Option Int := none
  config : Option (List (String × Value)) := none

structure TerraformManifest where
  source : String

structure SoftwareConfig where
  juju : JujuManifest := {}
  charms : List (String × CharmManifest) := []
  terraform : List (String × TerraformManifest) := []
  extra : List (String × Value) := []

/-- The mutable accumulator built up by `SoftwareConfig.get_default`. -/
structure FeatureAccum where
  charms : List (String × CharmManifest)
  terraform : List (String × TerraformManifest)
  extra : List (String × Value)

/-- The `ValueError` message raised by `SoftwareConfig.get_default` on a
key collision: `f"Feature {feature} overrides <kind> {key}"` where the
kind is `charm`, `tfplan` or `extra key`. -/
def overrideMsg (feature kind k : String) : String :=
  s!"Feature {feature} overrides {kind} {k}"

/-- One `for key in ...` loop body of `SoftwareConfig.get_default`
(manifest.py lines 117-128): insert each entry of a feature fragment into
the accumulated dict, raising `ValueError` on an already-present key. -/
def addEntries {α : Type} (feature kind : String)
    (acc : List (String × α)) : List (String × α) → Except String (List (String × α))
  | [] => .ok acc
  | (k, v) :: rest =>
      if (alookup k acc).isSome then .error (overrideMsg feature kind k)
      else addEntries feature kind (acc ++ [(k, v)]) rest

/-- Processing of one feature fragment in `SoftwareConfig.get_default`:
its charms, then its terraform plans, then its extra keys. -/
def addFeature (feature : String) (software : SoftwareConfig) (acc : FeatureAccum) :
    Except String FeatureAccum :=
  match addEntries feature "charm" acc.charms software.charms with
  | .error e => .error e
  | .ok charms =>
      match addEntries feature "tfplan" acc.terraform software.terraform with
      | .error e => .error e
      | .ok terraform =>
          match addEntries feature "extra key" acc.extra software.extra with
          | .error e => .error e
          | .ok extra => .ok ⟨charms, terraform, extra⟩

/-- The `for feature, software in feature_softwares.items()` loop of
`SoftwareConfig.get_default`. -/
def assembleFeatures (acc : FeatureAccum) :
    List (String × SoftwareConfig) → Except String FeatureAccum
  | [] => .ok acc
  | (f, software) :: rest =>
      match addFeature f software acc with
      | .error e => .error e
      | .ok acc' => assembleFeatures acc' rest

/-- `SoftwareConfig.get_default` (manifest.py lines 96-130).  The core
defaults (derived from `MANIFEST_CHARM_VERSIONS`, `TERRAFORM_DIR_NAMES`
and the snap paths, all outside this extract) are passed in explicitly. -/
def SoftwareConfig.get_default
    (coreCharms : List (String × CharmManifest))
    (coreTerraform : List (String × TerraformManifest))
    (feature_softwares : Option (List (String × SoftwareConfig))) :
    Except String SoftwareConfig :=
  match feature_softwares with
  | none => .ok { charms := coreCharms, terraform := coreTerraform }
  | some feats =>
      match assembleFeatures ⟨coreCharms, coreTerraform, []⟩ feats with
      | .error e => .error e
      | .ok acc => .ok { charms := acc.charms, terraform := acc.terraform, extra := acc.extra }

/-- `SoftwareConfig.validate_terraform_keys` (manifest.py lines 132-140). -/
def SoftwareConfig.validate_terraform_keys
    (self default_software_config : SoftwareConfig) : Except String Unit :=
  if self.terraform.isEmpty then .ok ()
  else
    let all_tfplans := keys default_software_config.terraform
    if (keys self.terraform).all (fun k => decide (k ∈ all_tfplans)) then .ok ()
    else .error s!"Manifest Software Terraform keys should be one of {all_tfplans} "

/-- `SoftwareConfig.validate_charm_keys` (manifest.py lines 142-150). -/
def SoftwareConfig.validate_charm_keys
    (self default_software_config : SoftwareConfig) : Except String Unit :=
  if self.charms.isEmpty then .ok ()
  else
    let all_charms := keys default_software_config.charms
    if (keys self.charms).all (fun k => decide (k ∈ all_charms)) then .ok ()
    else .error s!"Manifest Software charms keys should be one of {all_charms} "

/-- `SoftwareConfig.validate_against_default` (manifest.py lines 152-157). -/
def SoftwareConfig.validate_against_default
    (self default_software_config : SoftwareConfig) : Except String Unit :=
  match self.validate_terraform_keys default_software_config with
  | .error e => .error e
  | .ok _ => self.validate_charm_keys default_software_config

/-! ### The `AddManifestStep` model (manifest.py lines 214-291) -/

inductive ResultType where
  | COMPLETED
  | FAILED
  | SKIPPED
deriving Repr, DecidableEq

structure Result where
  result_type : ResultType
  message : Option String := none
deriving Repr, DecidableEq

inductive RiskLevel where
  | stable
  | candidate
  | beta
  | edge
deriving Repr, DecidableEq

/-- Outcome of `client.cluster.get_latest_manifest()`: the stored manifest
record (whose `data` field is handed to `yaml.safe_load`, represented by
its parse outcome), a `ManifestItemNotFoundException`, or a
`ClusterServiceUnavailableException`. -/
inductive StoreResp where
  | notFound
  | unavailable (msg : String)
  | found (dataParse : Except String (Option Value))

/-- `EMPTY_MANIFEST` (manifest.py line 43). -/
def EMPTY_MANIFEST : Value := .map [("charms", .map []), ("terraform", .map [])]

/-- Python `stored == content` where `stored` may be `None` and `content`
is known not to be `None`. -/
def storedEqContent (stored : Option Value) (c : Value) : Bool :=
  match stored with
  | some s => Value.beq s c
  | none => false

/-- The tail of `is_skip` from line 270 on: the `manifest_content is None`
check followed by the comparison against the latest stored manifest.  The
parse of the stored record's `data` (line 275) sits outside every
`try/except`, so a parse failure there escapes as an exception, modelled
by `Except.error`. -/
def compareWithLatest (latest : Option (Except String (Option Value)))
    (content : Option Value) : Except String (Result × Option Value) :=
  match content with
  | none => .ok (⟨.SKIPPED, none⟩, none)
  | some c =>
      match latest with
      | none => .ok (⟨.COMPLETED, none⟩, some c)
      | some (.error e) => .error e
      | some (.ok stored) =>
          if storedEqContent stored c then .ok (⟨.SKIPPED, none⟩, some c)
          else .ok (⟨.COMPLETED, none⟩, some c)

/-- Lines 246-250 of `is_skip`: the desired `manifest_content` coming from
the user inputs — the user file's parse outcome when a file is given, the
`EMPTY_MANIFEST` on an explicit clear, `None` otherwise. -/
def resolveUserContent (manifest_file : Option (Except String (Option Value)))
    (clear : Bool) : Except String (Option Value) :=
  match manifest_file with
  | some r => r
  | none => if clear then .ok (some EMPTY_MANIFEST) else .ok none

/-- `AddManifestStep.is_skip` (manifest.py lines 239-279), as a function of
the inferred risk level, the embedded manifest read-and-parse outcome, the
user manifest file (with its read-and-parse outcome when given), the
`clear` flag and the store response.  The returned pair carries the final
`self.manifest_content`; a `.error` result is an exception escaping the
method. -/
def AddManifestStep.is_skip
    (risk : RiskLevel)
    (embedded : Except String (Option Value))
    (manifest_file : Option (Except String (Option Value)))
    (clear : Bool)
    (store : StoreResp) : Except String (Result × Option Value) :=
  match embedded with
  | .error e => .ok (⟨.FAILED, some e⟩, none)
  | .ok embedded_manifest =>
      match resolveUserContent manifest_file clear with
      | .error e => .ok (⟨.FAILED, some e⟩, none)
      | .ok content =>
          match store with
          | .unavailable e => .ok (⟨.FAILED, some e⟩, content)
          | .notFound =>
              match content with
              | some c => compareWithLatest none (some c)
              | none =>
                  match risk with
                  | .stable => .ok (⟨.SKIPPED, none⟩, none)
                  | _ => compareWithLatest none embedded_manifest
          | .found dataParse => compareWithLatest (some dataParse) content

/-- `AddManifestStep.run` (manifest.py lines 281-290): serialize
`self.manifest_content` (`yaml.safe_dump`, passed in as `dump`), hand it to
`client.cluster.add_manifest`, and wrap the outcome; every exception is
caught and becomes a `FAILED` result. -/
def AddManifestStep.run (dump : Option Value → String)
    (manifest_content : Option Value)
    (add_manifest : String → Except String String) : Result :=
  match add_manifest (dump manifest_content) with
  | .ok i => ⟨.COMPLETED, some i⟩
  | .error e => ⟨.FAILED, some e⟩

/-! ### The CaaS feature's manifest section (caas/feature.py lines 55-67, 169-181) -/

/-- `CaasConfig` (caas/feature.py lines 55-67). -/
structure CaasConfig where
  image_name : Option String := none
  image_url : Option String := none
  container_format : Option String := none
  disk_format : Option String := none
  properties : List (String × Value) := []

/-- A Python value held under an `extra` key of a software config: an
already-typed `CaasConfig`, a raw mapping, or anything else. -/
inductive CaasVal where
  | caas (c : CaasConfig)
  | dict (d : List (String × Value))
  | other (r : String)

/-- The declared field names of `CaasConfig`. -/
def caasFieldNames : List String :=
  ["image_name", "image_url", "container_format", "disk_format", "properties"]

/-- A `str | None` field of `CaasConfig` extracted from a raw mapping. -/
def caasStrField (name : String) (d : List (String × Value)) :
    Except String (Option String) :=
  match alookup name d with
  | none => .ok none
  | some (.str s) => .ok (some s)
  | some _ => .error s!"Invalid value for field {name}"

/-- The `properties` dict field of `CaasConfig` extracted from a raw mapping. -/
def caasPropsField (d : List (String × Value)) :
    Except String (List (String × Value)) :=
  match alookup "properties" d with
  | none => .ok []
  | some (.map m) => .ok m
  | some _ => .error "Invalid value for field properties"

/-- `CaasConfig(**d)`: the pydantic construction of a `CaasConfig` from a
raw mapping; it fails on a key that is not a declared field and on an
ill-typed field value. -/
def CaasConfig.ofDict (d : List (String × Value)) : Except String CaasConfig :=
  match (keys d).filter (fun k => !(caasFieldNames.contains k)) with
  | k :: _ => .error s!"unexpected keyword argument {k}"
  | [] => do
      let image_name ← caasStrField "image_name" d
      let image_url ← caasStrField "image_url" d
      let container_format ← caasStrField "container_format" d
      let disk_format ← caasStrField "disk_format" d
      let properties ← caasPropsField d
      return ⟨image_name, image_url, container_format, disk_format, properties⟩

/-- `CaasFeature.add_manifest_section` (caas/feature.py lines 169-181),
acting on the `extra` bag of the software config; an `.error` outcome is
the raised `ValueError` / pydantic validation error. -/
def CaasFeature.add_manifest_section (extra : List (String × CaasVal)) :
    Except String (List (String × CaasVal)) :=
  match alookup "caas_config" extra with
  | none => .ok (setKey "caas_config" (.caas {}) extra)
  | some (.caas _) => .ok extra
  | some (.dict d) =>
      match CaasConfig.ofDict d with
      | .ok c => .ok (setKey "caas_config" (.caas c) extra)
      | .error e => .error e
  | some (.other r) => .error s!"Invalid caas_config in manifest: {r}"

/-! ### Basic lemmas -/

mutual

theorem Value.beq_iff : ∀ a b : Value, Value.beq a b = true ↔ a = b
  | .str a, .str b => by simp [Value.beq]
  | .str _, .num _ => by simp [Value.beq]
  | .str _, .bool _ => by simp [Value.beq]
  | .str _, .list _ => by simp [Value.beq]
  | .str _, .map _ => by simp [Value.beq]
  | .num _, .str _ => by simp [Value.beq]
  | .num a, .num b => by simp [Value.beq]
  | .num _, .bool _ => by simp [Value.beq]
  | .num _, .list _ => by simp [Value.beq]
  | .num _, .map _ => by simp [Value.beq]
  | .bool _, .str _ => by simp [Value.beq]
  | .bool _, .num _ => by simp [Value.beq]
  | .bool a, .bool b => by simp [Value.beq]
  | .bool _, .list _ => by simp [Value.beq]
  | .bool _, .map _ => by simp [Value.beq]
  | .list _, .str _ => by simp [Value.beq]
  | .list _, .num _ => by simp [Value.beq]
  | .list _, .bool _ => by simp [Value.beq]
  | .list a, .list b => by
      simp only [Value.beq, Value.list.injEq]
      exact Value.beqList_iff a b
  | .list _, .map _ => by simp [Value.beq]
  | .map _, .str _ => by simp [Value.beq]
  | .map _, .num _ => by simp [Value.beq]
  | .map _, .bool _ => by simp [Value.beq]
  | .map _, .list _ => by simp [Value.beq]
  | .map a, .map b => by
      simp only [Value.beq, Value.map.injEq]
      exact Value.beqEntries_iff a b

theorem Value.beqList_iff : ∀ a b : List Value, Value.beqList a b = true ↔ a = b
  | [], [] => by simp [Value.beqList]
  | [], _ :: _ => by simp [Value.beqList]
  | _ :: _, [] => by simp [Value.beqList]
  | a :: as, b :: bs => by
      simp only [Value.beqList, Bool.and_eq_true, List.cons.injEq]
      rw [Value.beq_iff a b, Value.beqList_iff as bs]

theorem Value.beqEntries_iff :
    ∀ a b : List (String × Value), Value.beqEntries a b = true ↔ a = b
  | [], [] => by simp [Value.beqEntries]
  | [], _ :: _ => by simp [Value.beqEntries]
  | _ :: _, [] => by simp [Value.beqEntries]
  | (k, v) :: as, (l, w) :: bs => by
      simp only [Value.beqEntries, Bool.and_eq_true, List.cons.injEq, Prod.mk.injEq,
        beq_iff_eq]
      rw [Value.beq_iff v w, Value.beqEntries_iff as bs]

end

theorem Value.beq_refl (v : Value) : Value.beq v v = true :=
  (Value.beq_iff v v).2 rfl

theorem alookup_eq_none_iff {α : Type} (k : String) (l : List (String × α)) :
    alookup k l = none ↔ k ∉ keys l := by
  induction l with
  | nil => simp [alookup, keys]
  | cons p rest ih =>
      obtain ⟨k', v⟩ := p
      by_cases h : k = k' <;> simp [alookup, keys, h, ih]

theorem alookup_isSome_iff {α : Type} (k : String) (l : List (String × α)) :
    (alookup k l).isSome = true ↔ k ∈ keys l := by
  induction l with
  | nil => simp [alookup, keys]
  | cons p rest ih =>
      obtain ⟨k', v⟩ := p
      by_cases h : k = k' <;> simp [alookup, keys, h, ih]

theorem alookup_append {α : Type} (k : String) (a b : List (String × α)) :
    alookup k (a ++ b) =
      match alookup k a with
      | some v => some v
      | none => alookup k b := by
  induction a with
  | nil => simp [alookup]
  | cons p rest ih =>
      obtain ⟨k', v⟩ := p
      by_cases h : k = k' <;> simp [alookup, h, ih]

theorem keys_append {α : Type} (a b : List (String × α)) :
    keys (a ++ b) = keys a ++ keys b := by
  simp [keys]

theorem alookup_of_mem_nodup {α : Type} {k : String} {v : α} {l : List (String × α)}
    (hnd : (keys l).Nodup) (hm : (k, v) ∈ l) : alookup k l = some v := by
  induction l with
  | nil => simp at hm
  | cons p rest ih =>
      obtain ⟨k', v'⟩ := p
      simp only [keys, List.map_cons, List.nodup_cons] at hnd
      rcases List.mem_cons.mp hm with h | h
      · obtain ⟨rfl, rfl⟩ : k = k' ∧ v = v' :=
          ⟨congrArg Prod.fst h, congrArg Prod.snd h⟩
        simp [alookup]
      · have hk : k ≠ k' := by
          rintro rfl
          exact hnd.1 (by simpa [keys] using List.mem_map_of_mem Prod.fst h)
        simp [alookup, hk, ih hnd.2 h]

/-! ### Merge-engine lemmas -/

theorem alookup_mergeBase (o b : List (String × Value)) (k : String) :
    alookup k (mergeBase o b) =
      (alookup k b).map (fun v =>
        match alookup k o with
        | some w => mergeValue v w
        | none => v) := by
  induction b with
  | nil => simp [mergeBase, alookup]
  | cons p rest ih =>
      obtain ⟨k', v⟩ := p
      by_cases h : k = k'
      · subst h
        cases hko : alookup k o <;> simp [mergeBase, alookup, hko]

      · cases hko : alookup k' o <;> simp [mergeBase, alookup, h, hko, ih]

theorem alookup_filter_keys {α : Type} (k : String) (l : List (String × α))
    (f : String → Bool) :
    alookup k (l.filter (fun p => f p.1)) =
      if f k then alookup k l else none := by
  induction l with
  | nil => simp [alookup]
  | cons p rest ih =>
      obtain ⟨k', v⟩ := p
      by_cases h : k = k'
      · subst h
        cases hf : f k <;> simp [alookup, List.filter_cons, hf, ih]
      · cases hf : f k' <;> simp [alookup, List.filter_cons, hf, h, ih]

/-- Lookup characterization of the Merge Engine on mappings. -/
theorem alookup_mergeEntries (b o : List (String × Value)) (k : String) :
    alookup k (mergeEntries b o) =
      match alookup k b, alookup k o with
      | some v, some w => some (mergeValue v w)
      | some v, none => some v
      | none, r => r := by
  have hfilter :
      alookup k (o.filter (fun p => (alookup p.1 b).isNone)) =
        if (alookup k b).isNone then alookup k o else none :=
    alookup_filter_keys k o (fun k' => (alookup k' b).isNone)
  rw [mergeEntries, alookup_append, alookup_mergeBase]
  cases hb : alookup k b <;> cases ho : alookup k o <;>
    simp [hb, ho] at hfilter ⊢ <;> simp [hfilter]

theorem mergeBase_eq_self (l : List (String × Value)) (hnd : (keys l).Nodup) :
    ∀ b : List (String × Value),
      (∀ e ∈ b, e ∈ l ∧ mergeValue e.2 e.2 = e.2) → mergeBase l b = b := by
  intro b
  induction b with
  | nil => intro _; rfl
  | cons p rest ih =>
      intro hb
      obtain ⟨k, v⟩ := p
      obtain ⟨hmem, hself⟩ := hb (k, v) (List.mem_cons_self _ _)
      have hlk : alookup k l = some v := alookup_of_mem_nodup hnd hmem
      simp only [mergeBase, hlk]
      rw [ih (fun e he => hb e (List.mem_cons_of_mem _ he))]
      simpa using hself

mutual

theorem mergeValue_self : ∀ v : Value, wfValue v = true → mergeValue v v = v
  | .str _, _ => rfl
  | .num _, _ => rfl
  | .bool _, _ => rfl
  | .list _, _ => rfl
  | .map l, h => by
      simp only [wfValue, Bool.and_eq_true, decide_eq_true_eq] at h
      obtain ⟨hnd, hwf⟩ := h
      have hfilter : l.filter (fun p => (alookup p.1 l).isNone) = [] := by
        rw [List.filter_eq_nil_iff]
        intro p hp
        have hk : p.1 ∈ keys l := List.mem_map_of_mem Prod.fst hp
        have hs := (alookup_isSome_iff p.1 l).2 hk
        simp [Option.isNone, Option.isSome] at hs ⊢
        cases hck : alookup p.1 l
        · rw [hck] at hs; simp at hs
        · simp
      have hbase : mergeBase l l = l :=
        mergeBase_eq_self l hnd l
          (fun e he => ⟨he, mergeEntries_self_elem l hwf e he⟩)
      simp [mergeValue, hbase, hfilter]

theorem mergeEntries_self_elem :
    ∀ es : List (String × Value), wfEntries es = true →
      ∀ e ∈ es, mergeValue e.2 e.2 = e.2
  | [], _, e, he => by simp at he
  | (k, v) :: rest, h, e, he => by
      simp only [wfEntries, Bool.and_eq_true] at h
      rcases List.mem_cons.mp he with rfl | hmem
      · exact mergeValue_self v h.1
      · exact mergeEntries_self_elem rest h.2 e hmem

end

theorem mergeEntries_self (l : List (String × Value))
    (h : wfValue (.map l) = true) : mergeEntries l l = l := by
  have := mergeValue_self (.map l) h
  simpa [mergeValue, mergeEntries] using this

theorem alookup_setKey {α : Type} (k : String) (v : α) (l : List (String × α)) :
    alookup k (setKey k v l) = some v := by
  induction l with
  | nil => simp [setKey, alookup]
  | cons p rest ih =>
      obtain ⟨k', v'⟩ := p
      by_cases h : k = k' <;> simp [setKey, alookup, h, ih]

/-! ### Claim theorems -/

/-- C10: `is_skip` reads and parses the embedded per-risk manifest before
any other source; when that read or parse fails it returns a `FAILED`
result whatever the user inputs are, with the same outcome for every store
response (so the store is never consulted). -/
theorem is_skip_embedded_read_first (risk : RiskLevel) (e : String)
    (manifest_file : Option (Except String (Option Value))) (clear : Bool)
    (store : StoreResp) :
    AddManifestStep.is_skip risk (.error e) manifest_file clear store =
      .ok (⟨.FAILED, some e⟩, none) := rfl

/-- C5: with no user manifest file, no clear request, a store with no prior
manifest and the stable risk level, `is_skip` returns `SKIPPED` and the
desired manifest content stays unset, whatever the embedded manifest
parsed to. -/
theorem is_skip_stable_no_seed (emb : Option Value) :
    AddManifestStep.is_skip .stable (.ok emb) none false .notFound =
      .ok (⟨.SKIPPED, none⟩, none) := rfl

/-- C6 (failing-input evaluation): when the stored manifest exists but its
`data` is malformed, and a differing user manifest file is supplied,
`is_skip` lets the parse error escape as an exception instead of returning
a `FAILED` result — the `yaml.safe_load` on line 275 of manifest.py sits
outside every `try/except`. -/
theorem is_skip_stored_parse_escapes :
    AddManifestStep.is_skip .stable (.ok none)
        (some (.ok (some (Value.str "new")))) false
        (.found (.error "while parsing a flow node: expected the node content")) =
      .error "while parsing a flow node: expected the node content" := rfl

/-- C1: when `is_skip` resolves a desired manifest content `c` from the
user inputs, it returns `SKIPPED` if the stored manifest parses to exactly
`c`, `COMPLETED` if the stored manifest parses to something else or no
stored manifest exists, and a subsequent `run` hands the serialized
content to the store and returns `COMPLETED` carrying the store-assigned
identifier. -/
theorem is_skip_run_contract (risk : RiskLevel)
    (emb : Option Value) (manifest_file : Option (Except String (Option Value)))
    (clear : Bool) (c : Value) (stored : Option Value)
    (hcontent : resolveUserContent manifest_file clear = .ok (some c)) :
    (stored = some c →
       AddManifestStep.is_skip risk (.ok emb) manifest_file clear
           (.found (.ok stored)) = .ok (⟨.SKIPPED, none⟩, some c))
  ∧ (stored ≠ some c →
       AddManifestStep.is_skip risk (.ok emb) manifest_file clear
           (.found (.ok stored)) = .ok (⟨.COMPLETED, none⟩, some c))
  ∧ (AddManifestStep.is_skip risk (.ok emb) manifest_file clear .notFound =
       .ok (⟨.COMPLETED, none⟩, some c))
  ∧ (∀ (dump : Option Value → String) (add_manifest : String → Except String String)
        (i : String), add_manifest (dump (some c)) = .ok i →
       AddManifestStep.run dump (some c) add_manifest = ⟨.COMPLETED, some i⟩) := by
  refine ⟨?_, ?_, ?_, ?_⟩
  · rintro rfl
    simp [AddManifestStep.is_skip, hcontent, compareWithLatest, storedEqContent,
      Value.beq_refl]
  · intro hne
    cases stored with
    | none =>
        simp [AddManifestStep.is_skip, hcontent, compareWithLatest, storedEqContent]
    | some s =>
        have hbc : Value.beq s c = false := by
          cases hb : Value.beq s c
          · rfl
          · exact absurd (congrArg some ((Value.beq_iff s c).1 hb)) hne
        simp [AddManifestStep.is_skip, hcontent, compareWithLatest, storedEqContent, hbc]
  · simp [AddManifestStep.is_skip, hcontent, compareWithLatest]
  · intro dump add_manifest i hadd
    simp [AddManifestStep.run, hadd]

theorem is_skip_run_contract_witness :
    (AddManifestStep.is_skip .edge (.ok none) (some (.ok (some (Value.str "m"))))
         false (.found (.ok (some (Value.str "m")))) =
       .ok (⟨.SKIPPED, none⟩, some (Value.str "m")))
  ∧ (AddManifestStep.is_skip .edge (.ok none) (some (.ok (some (Value.str "m"))))
         false (.found (.ok (some (Value.str "other")))) =
       .ok (⟨.COMPLETED, none⟩, some (Value.str "m")))
  ∧ (AddManifestStep.is_skip .edge (.ok none) (some (.ok (some (Value.str "m"))))
         false .notFound = .ok (⟨.COMPLETED, none⟩, some (Value.str "m")))
  ∧ AddManifestStep.run (fun _ => "serialized") (some (Value.str "m"))
      (fun _ => .ok "42") = ⟨.COMPLETED, some "42"⟩ :=
  ⟨(is_skip_run_contract .edge none (some (.ok (some (Value.str "m")))) false
      (Value.str "m") (some (Value.str "m")) rfl).1 rfl,
   (is_skip_run_contract .edge none (some (.ok (some (Value.str "m")))) false
      (Value.str "m") (some (Value.str "other")) rfl).2.1 (by simp),
   (is_skip_run_contract .edge none (some (.ok (some (Value.str "m")))) false
      (Value.str "m") (some (Value.str "m")) rfl).2.2.1,
   (is_skip_run_contract .edge none (some (.ok (some (Value.str "m")))) false
      (Value.str "m") none rfl).2.2.2 (fun _ => "serialized")
      (fun _ => .ok "42") "42" rfl⟩

/-- C9: `add_manifest_section` installs a default `CaasConfig` when the
`caas_config` extra key is absent, keeps an already-typed `CaasConfig`
unchanged, replaces a raw mapping by its coercion to `CaasConfig` when the
coercion succeeds, and raises a `ValueError` on any other value. -/
theorem add_manifest_section_spec (extra : List (String × CaasVal)) :
    (alookup "caas_config" extra = none →
       CaasFeature.add_manifest_section extra =
         .ok (setKey "caas_config" (.caas {}) extra))
  ∧ (∀ c, alookup "caas_config" extra = some (.caas c) →
       CaasFeature.add_manifest_section extra = .ok extra)
  ∧ (∀ d c, alookup "caas_config" extra = some (.dict d) →
       CaasConfig.ofDict d = .ok c →
       CaasFeature.add_manifest_section extra =
           .ok (setKey "caas_config" (.caas c) extra) ∧
         alookup "caas_config" (setKey "caas_config" (CaasVal.caas c) extra) =
           some (.caas c))
  ∧ (∀ r, alookup "caas_config" extra = some (.other r) →
       CaasFeature.add_manifest_section extra =
         .error s!"Invalid caas_config in manifest: {r}") := by
  refine ⟨?_, ?_, ?_, ?_⟩
  · intro h; simp [CaasFeature.add_manifest_section, h]
  · intro c h; simp [CaasFeature.add_manifest_section, h]
  · intro d c h hco
    exact ⟨by simp [CaasFeature.add_manifest_section, h, hco],
      alookup_setKey "caas_config" (CaasVal.caas c) extra⟩
  · intro r h; simp [CaasFeature.add_manifest_section, h]

theorem add_manifest_section_spec_witness :
    (CaasFeature.add_manifest_section
         [("caas_config", CaasVal.dict [("image_name", Value.str "jammy")])] =
       .ok [("caas_config",
         CaasVal.caas ⟨some "jammy", none, none, none, []⟩)])
  ∧ (CaasFeature.add_manifest_section [("caas_config", CaasVal.other "3")] =
       .error "Invalid caas_config in manifest: 3")
  ∧ (CaasFeature.add_manifest_section [] =
       .ok [("caas_config", CaasVal.caas ⟨none, none, none, none, []⟩)]) :=
  ⟨((add_manifest_section_spec
        [("caas_config", CaasVal.dict [("image_name", Value.str "jammy")])]).2.2.1
      [("image_name", Value.str "jammy")] ⟨some "jammy", none, none, none, []⟩
      rfl rfl).1,
   (add_manifest_section_spec [("caas_config", CaasVal.other "3")]).2.2.2 "3" rfl,
   (add_manifest_section_spec []).1 rfl⟩

theorem validate_terraform_keys_ok_iff (s d : SoftwareConfig) :
    s.validate_terraform_keys d = .ok () ↔
      ∀ k ∈ keys s.terraform, k ∈ keys d.terraform := by
  unfold SoftwareConfig.validate_terraform_keys
  by_cases h : s.terraform.isEmpty
  · have hnil : s.terraform = [] := List.isEmpty_iff.mp h
    simp [h, hnil, keys]
  · by_cases hall : (keys s.terraform).all
        (fun k => decide (k ∈ keys d.terraform)) = true
    · simp only [List.all_eq_true, decide_eq_true_eq] at hall
      simp [h, List.all_eq_true, hall]
    · simp only [List.all_eq_true, decide_eq_true_eq] at hall
      simp [h, List.all_eq_true, hall]

theorem validate_charm_keys_ok_iff (s d : SoftwareConfig) :
    s.validate_charm_keys d = .ok () ↔
      ∀ k ∈ keys s.charms, k ∈ keys d.charms := by
  unfold SoftwareConfig.validate_charm_keys
  by_cases h : s.charms.isEmpty
  · have hnil : s.charms = [] := List.isEmpty_iff.mp h
    simp [h, hnil, keys]
  · by_cases hall : (keys s.charms).all
        (fun k => decide (k ∈ keys d.charms)) = true
    · simp only [List.all_eq_true, decide_eq_true_eq] at hall
      simp [h, List.all_eq_true, hall]
    · simp only [List.all_eq_true, decide_eq_true_eq] at hall
      simp [h, List.all_eq_true, hall]

/-- C3: `validate_against_default` succeeds exactly when the candidate's
charm keys are a subset of the default's charm keys and its terraform keys
a subset of the default's terraform keys; the `extra` bag (and the juju
section) never affects the outcome. -/
theorem validate_against_default_spec (self default_software_config : SoftwareConfig) :
    (SoftwareConfig.validate_against_default self default_software_config = .ok () ↔
       ((∀ k ∈ keys self.charms, k ∈ keys default_software_config.charms) ∧
        (∀ k ∈ keys self.terraform, k ∈ keys default_software_config.terraform)))
  ∧ (∀ (extraV : List (String × Value)) (jujuV : JujuManifest),
       SoftwareConfig.validate_against_default
           { self with extra := extraV, juju := jujuV } default_software_config =
         SoftwareConfig.validate_against_default self default_software_config) := by
  constructor
  · unfold SoftwareConfig.validate_against_default
    cases hts : self.validate_terraform_keys default_software_config with
    | error e =>
        have := validate_terraform_keys_ok_iff self default_software_config
        rw [hts] at this
        simp only [reduceCtorEq, false_iff] at this
        simp [this]
    | ok u =>
        cases u
        have hts' := (validate_terraform_keys_ok_iff self default_software_config).mp hts
        rw [validate_charm_keys_ok_iff]
        tauto
  · intro extraV jujuV
    rfl

/-- C4: merge precedence of the Merge Engine.  A key present only in the
base keeps the base's value, a key present only in the override gets the
override's value, a key present in both gets the recursive merge of two
mappings and the override's value otherwise (scalars and lists are
replaced, never concatenated); `SoftwareConfig.merge` applies exactly this
engine to each component of the two configurations. -/
theorem merge_precedence (b o : List (String × Value)) (k : String) :
    (∀ v, alookup k b = some v → alookup k o = none →
       alookup k (mergeEntries b o) = some v)
  ∧ (alookup k b = none → alookup k (mergeEntries b o) = alookup k o)
  ∧ (∀ v w, alookup k b = some v → alookup k o = some w →
       alookup k (mergeEntries b o) = some (mergeValue v w))
  ∧ (∀ mb mo, mergeValue (Value.map mb) (Value.map mo) =
       Value.map (mergeEntries mb mo))
  ∧ (∀ v w, (v.isMap && w.isMap) = false → mergeValue v w = w)
  ∧ (∀ c₁ c₂ : SoftwareConfigM,
       SoftwareConfigM.merge c₁ c₂ =
         ⟨mergeEntries c₁.juju c₂.juju, mergeEntries c₁.charms c₂.charms,
          mergeEntries c₁.terraform c₂.terraform, mergeEntries c₁.extra c₂.extra⟩) := by
  refine ⟨?_, ?_, ?_, ?_, ?_, ?_⟩
  · intro v hb ho
    rw [alookup_mergeEntries, hb, ho]
  · intro hb
    rw [alookup_mergeEntries, hb]
  · intro v w hb ho
    rw [alookup_mergeEntries, hb, ho]
  · intro mb mo
    rfl
  · intro v w h
    cases v <;> cases w <;> simp [Value.isMap] at h ⊢ <;> rfl
  · intro c₁ c₂
    rfl

theorem merge_precedence_witness :
    (alookup "base_only" (mergeEntries
         [("base_only", Value.num 1), ("both", Value.num 2)]
         [("both", Value.num 3), ("new", Value.num 4)]) = some (Value.num 1))
  ∧ (alookup "new" (mergeEntries
         [("base_only", Value.num 1), ("both", Value.num 2)]
         [("both", Value.num 3), ("new", Value.num 4)]) =
       alookup "new" [("both", Value.num 3), ("new", Value.num 4)])
  ∧ (alookup "both" (mergeEntries
         [("base_only", Value.num 1), ("both", Value.num 2)]
         [("both", Value.num 3), ("new", Value.num 4)]) =
       some (mergeValue (Value.num 2) (Value.num 3)))
  ∧ mergeValue (Value.list [Value.num 1]) (Value.list [Value.num 2, Value.num 3]) =
      Value.list [Value.num 2, Value.num 3] :=
  ⟨(merge_precedence [("base_only", Value.num 1), ("both", Value.num 2)]
      [("both", Value.num 3), ("new", Value.num 4)] "base_only").1
      (Value.num 1) rfl rfl,
   (merge_precedence [("base_only", Value.num 1), ("both", Value.num 2)]
      [("both", Value.num 3), ("new", Value.num 4)] "new").2.1 rfl,
   (merge_precedence [("base_only", Value.num 1), ("both", Value.num 2)]
      [("both", Value.num 3), ("new", Value.num 4)] "both").2.2.1
      (Value.num 2) (Value.num 3) rfl rfl,
   (merge_precedence [] [] "x").2.2.2.2.1
      (Value.list [Value.num 1]) (Value.list [Value.num 2, Value.num 3]) rfl⟩

/-- C7: merging a well-formed configuration with itself yields it back
unchanged, both for `Manifest.merge` and for `SoftwareConfig.merge`. -/
theorem merge_idempotent (m : ManifestM) (h : wfManifestM m = true) :
    ManifestM.merge m m = m ∧
      SoftwareConfigM.merge m.software m.software = m.software := by
  obtain ⟨dep, ⟨ju, ch, tf, ex⟩⟩ := m
  simp only [wfManifestM, wfSoftwareConfigM, Bool.and_eq_true] at h
  obtain ⟨hdep, hju, hch, htf, hex⟩ :
      wfValue (.map dep) = true ∧ wfValue (.map ju) = true ∧
        wfValue (.map ch) = true ∧ wfValue (.map tf) = true ∧
        wfValue (.map ex) = true := by tauto
  refine ⟨?_, ?_⟩ <;>
    simp [ManifestM.merge, SoftwareConfigM.merge, mergeEntries_self _ hdep,
      mergeEntries_self _ hju, mergeEntries_self _ hch, mergeEntries_self _ htf,
      mergeEntries_self _ hex]

theorem merge_idempotent_witness :
    ManifestM.merge
        ⟨[("name", Value.str "demo")],
         ⟨[("bootstrap_args", Value.list [Value.str "--debug"])],
          [("nova", Value.map [("channel", Value.str "2024.1/stable")])],
          [("openstack", Value.map [("source", Value.str "/snap/etc/plans")])],
          [("caas_config", Value.map [("image_name", Value.str "jammy")])]⟩⟩
        ⟨[("name", Value.str "demo")],
         ⟨[("bootstrap_args", Value.list [Value.str "--debug"])],
          [("nova", Value.map [("channel", Value.str "2024.1/stable")])],
          [("openstack", Value.map [("source", Value.str "/snap/etc/plans")])],
          [("caas_config", Value.map [("image_name", Value.str "jammy")])]⟩⟩ =
      ⟨[("name", Value.str "demo")],
       ⟨[("bootstrap_args", Value.list [Value.str "--debug"])],
        [("nova", Value.map [("channel", Value.str "2024.1/stable")])],
        [("openstack", Value.map [("source", Value.str "/snap/etc/plans")])],
        [("caas_config", Value.map [("image_name", Value.str "jammy")])]⟩⟩ :=
  (merge_idempotent
    ⟨[("name", Value.str "demo")],
     ⟨[("bootstrap_args", Value.list [Value.str "--debug"])],
      [("nova", Value.map [("channel", Value.str "2024.1/stable")])],
      [("openstack", Value.map [("source", Value.str "/snap/etc/plans")])],
      [("caas_config", Value.map [("image_name", Value.str "jammy")])]⟩⟩
    (by decide)).1

theorem addEntries_ok {α : Type} (feature kind : String) :
    ∀ entries acc : List (String × α),
      (keys acc ++ keys entries).Nodup →
      addEntries feature kind acc entries = .ok (acc ++ entries) := by
  intro entries
  induction entries with
  | nil => intro acc _; simp [addEntries]
  | cons p rest ih =>
      intro acc h
      obtain ⟨k, v⟩ := p
      have hk : k ∉ keys acc := by
        rw [List.nodup_append] at h
        intro hmem
        exact h.2.2 hmem (by simp [keys])
      have hnone : alookup k acc = none := (alookup_eq_none_iff k acc).2 hk
      have hrec := ih (acc ++ [(k, v)]) (by
        have heq : keys (acc ++ [(k, v)]) ++ keys rest = keys acc ++ keys ((k, v) :: rest) := by
          rw [keys_append, List.append_assoc]
          rfl
        rw [heq]
        exact h)
      simp [addEntries, hnone, hrec]

theorem addEntries_err {α : Type} (feature kind : String) :
    ∀ entries acc : List (String × α),
      (keys acc).Nodup → ¬ (keys acc ++ keys entries).Nodup →
      ∃ k, k ∈ keys entries ∧
        addEntries feature kind acc entries =
          .error (overrideMsg feature kind k) ∧
        2 ≤ (keys acc ++ keys entries).count k := by
  intro entries
  induction entries with
  | nil =>
      intro acc hacc hnd
      refine absurd ?_ hnd
      simpa [keys] using hacc
  | cons p rest ih =>
      intro acc hacc hnd
      obtain ⟨k, v⟩ := p
      by_cases hk : k ∈ keys acc
      · have hsome : (alookup k acc).isSome = true := (alookup_isSome_iff k acc).2 hk
        refine ⟨k, by simp [keys], by simp [addEntries, hsome], ?_⟩
        have h1 : 0 < (keys acc).count k := List.count_pos_iff.mpr hk
        have h2 : (keys ((k, v) :: rest)).count k = (keys rest).count k + 1 := by
          simp [keys, List.count_cons_self]
        rw [List.count_append, h2]
        omega
      · have hnone : alookup k acc = none := (alookup_eq_none_iff k acc).2 hk
        have hacc' : (keys (acc ++ [(k, v)])).Nodup := by
          rw [keys_append]
          refine List.Nodup.append hacc (by simp [keys]) ?_
          intro a ha hmem
          have : a = k := by simpa [keys] using hmem
          exact hk (this ▸ ha)
        have heq : keys (acc ++ [(k, v)]) ++ keys rest = keys acc ++ keys ((k, v) :: rest) := by
          rw [keys_append, List.append_assoc]
          rfl
        have hnd' : ¬ (keys (acc ++ [(k, v)]) ++ keys rest).Nodup := by
          rw [heq]; exact hnd
        obtain ⟨k', hk'mem, herr, hcount⟩ := ih (acc ++ [(k, v)]) hacc' hnd'
        refine ⟨k', by simp [keys]; right; simpa [keys] using hk'mem, ?_, ?_⟩
        · simp [addEntries, hnone, herr]
        · rw [← heq]; exact hcount

theorem assembleFeatures_spec (fs : List (String × SoftwareConfig)) :
    ∀ acc : FeatureAccum,
      (keys acc.charms).Nodup → (keys acc.terraform).Nodup → (keys acc.extra).Nodup →
      (((keys acc.charms ++ fs.flatMap (fun p => keys p.2.charms)).Nodup ∧
        (keys acc.terraform ++ fs.flatMap (fun p => keys p.2.terraform)).Nodup ∧
        (keys acc.extra ++ fs.flatMap (fun p => keys p.2.extra)).Nodup) →
        assembleFeatures acc fs =
          .ok ⟨acc.charms ++ fs.flatMap (fun p => p.2.charms),
               acc.terraform ++ fs.flatMap (fun p => p.2.terraform),
               acc.extra ++ fs.flatMap (fun p => p.2.extra)⟩) ∧
      (¬ ((keys acc.charms ++ fs.flatMap (fun p => keys p.2.charms)).Nodup ∧
          (keys acc.terraform ++ fs.flatMap (fun p => keys p.2.terraform)).Nodup ∧
          (keys acc.extra ++ fs.flatMap (fun p => keys p.2.extra)).Nodup) →
        ∃ f software, (f, software) ∈ fs ∧
          ((∃ k, k ∈ keys software.charms ∧
              assembleFeatures acc fs = .error (overrideMsg f "charm" k) ∧
              2 ≤ (keys acc.charms ++ fs.flatMap (fun p => keys p.2.charms)).count k) ∨
           (∃ k, k ∈ keys software.terraform ∧
              assembleFeatures acc fs = .error (overrideMsg f "tfplan" k) ∧
              2 ≤ (keys acc.terraform ++
                    fs.flatMap (fun p => keys p.2.terraform)).count k) ∨
           (∃ k, k ∈ keys software.extra ∧
              assembleFeatures acc fs = .error (overrideMsg f "extra key" k) ∧
              2 ≤ (keys acc.extra ++ fs.flatMap (fun p => keys p.2.extra)).count k))) := by
  induction fs with
  | nil =>
      intro acc h1 h2 h3
      constructor
      · intro _
        obtain ⟨c, t, e⟩ := acc
        simp [assembleFeatures]
      · intro hnot
        exact absurd ⟨by simpa using h1, by simpa using h2, by simpa using h3⟩ hnot
  | cons p rest ih =>
      obtain ⟨f, sw⟩ := p
      intro acc h1 h2 h3
      by_cases hch : (keys acc.charms ++ keys sw.charms).Nodup
      · by_cases htf : (keys acc.terraform ++ keys sw.terraform).Nodup
        · by_cases hex : (keys acc.extra ++ keys sw.extra).Nodup
          · -- every key of this feature is fresh: the step succeeds
            have hchok := addEntries_ok f "charm" sw.charms acc.charms hch
            have htfok := addEntries_ok f "tfplan" sw.terraform acc.terraform htf
            have hexok := addEntries_ok f "extra key" sw.extra acc.extra hex
            have haddf : addFeature f sw acc =
                .ok ⟨acc.charms ++ sw.charms, acc.terraform ++ sw.terraform,
                     acc.extra ++ sw.extra⟩ := by
              simp [addFeature, hchok, htfok, hexok]
            have hstep : assembleFeatures acc ((f, sw) :: rest) =
                assembleFeatures ⟨acc.charms ++ sw.charms,
                  acc.terraform ++ sw.terraform, acc.extra ++ sw.extra⟩ rest := by
              simp [assembleFeatures, haddf]
            have h1' : (keys (acc.charms ++ sw.charms)).Nodup := by
              rw [keys_append]; exact hch
            have h2' : (keys (acc.terraform ++ sw.terraform)).Nodup := by
              rw [keys_append]; exact htf
            have h3' : (keys (acc.extra ++ sw.extra)).Nodup := by
              rw [keys_append]; exact hex
            have ihs := ih ⟨acc.charms ++ sw.charms, acc.terraform ++ sw.terraform,
              acc.extra ++ sw.extra⟩ h1' h2' h3'
            have eC : keys (acc.charms ++ sw.charms) ++
                  rest.flatMap (fun p => keys p.2.charms) =
                keys acc.charms ++
                  ((f, sw) :: rest).flatMap (fun p => keys p.2.charms) := by
              rw [keys_append, List.append_assoc, List.flatMap_cons]
            have eT : keys (acc.terraform ++ sw.terraform) ++
                  rest.flatMap (fun p => keys p.2.terraform) =
                keys acc.terraform ++
                  ((f, sw) :: rest).flatMap (fun p => keys p.2.terraform) := by
              rw [keys_append, List.append_assoc, List.flatMap_cons]
            have eE : keys (acc.extra ++ sw.extra) ++
                  rest.flatMap (fun p => keys p.2.extra) =
                keys acc.extra ++
                  ((f, sw) :: rest).flatMap (fun p => keys p.2.extra) := by
              rw [keys_append, List.append_assoc, List.flatMap_cons]
            constructor
            · intro hnd
              obtain ⟨a, b, c⟩ := hnd
              rw [← eC] at a
              rw [← eT] at b
              rw [← eE] at c
              rw [hstep, ihs.1 ⟨a, b, c⟩]
              simp [List.flatMap_cons, List.append_assoc]
            · intro hnot
              have hnot' : ¬ ((keys (acc.charms ++ sw.charms) ++
                    rest.flatMap (fun p => keys p.2.charms)).Nodup ∧
                  (keys (acc.terraform ++ sw.terraform) ++
                    rest.flatMap (fun p => keys p.2.terraform)).Nodup ∧
                  (keys (acc.extra ++ sw.extra) ++
                    rest.flatMap (fun p => keys p.2.extra)).Nodup) := by
                rintro ⟨a, b, c⟩
                rw [eC] at a
                rw [eT] at b
                rw [eE] at c
                exact hnot ⟨a, b, c⟩
              obtain ⟨f', sw', hmem, hdisj⟩ := ihs.2 hnot'
              refine ⟨f', sw', List.mem_cons_of_mem _ hmem, ?_⟩
              rcases hdisj with ⟨k, hk, herr, hcnt⟩ | ⟨k, hk, herr, hcnt⟩ |
                ⟨k, hk, herr, hcnt⟩
              · exact Or.inl ⟨k, hk, by rw [hstep]; exact herr,
                  by rw [← eC]; exact hcnt⟩
              · exact Or.inr (Or.inl ⟨k, hk, by rw [hstep]; exact herr,
                  by rw [← eT]; exact hcnt⟩)
              · exact Or.inr (Or.inr ⟨k, hk, by rw [hstep]; exact herr,
                  by rw [← eE]; exact hcnt⟩)
          · -- collision on an extra key of this feature
            obtain ⟨k, hkmem, herr, hcnt⟩ :=
              addEntries_err f "extra key" sw.extra acc.extra h3 hex
            have haddf : addFeature f sw acc =
                .error (overrideMsg f "extra key" k) := by
              simp [addFeature, addEntries_ok f "charm" sw.charms acc.charms hch,
                addEntries_ok f "tfplan" sw.terraform acc.terraform htf, herr]
            have hstep : assembleFeatures acc ((f, sw) :: rest) =
                .error (overrideMsg f "extra key" k) := by
              simp [assembleFeatures, haddf]
            have hsub : List.Sublist (keys acc.extra ++ keys sw.extra)
                (keys acc.extra ++
                  ((f, sw) :: rest).flatMap (fun p => keys p.2.extra)) := by
              rw [List.flatMap_cons]
              exact (List.sublist_append_left _ _).append_left _
            constructor
            · rintro ⟨-, -, c⟩
              exact absurd (c.sublist hsub) hex
            · intro _
              exact ⟨f, sw, List.mem_cons_self _ _, Or.inr (Or.inr
                ⟨k, hkmem, hstep, le_trans hcnt (hsub.count_le k)⟩)⟩
        · -- collision on a terraform key of this feature
          obtain ⟨k, hkmem, herr, hcnt⟩ :=
            addEntries_err f "tfplan" sw.terraform acc.terraform h2 htf
          have haddf : addFeature f sw acc =
              .error (overrideMsg f "tfplan" k) := by
            simp [addFeature, addEntries_ok f "charm" sw.charms acc.charms hch, herr]
          have hstep : assembleFeatures acc ((f, sw) :: rest) =
              .error (overrideMsg f "tfplan" k) := by
            simp [assembleFeatures, haddf]
          have hsub : List.Sublist (keys acc.terraform ++ keys sw.terraform)
              (keys acc.terraform ++
                ((f, sw) :: rest).flatMap (fun p => keys p.2.terraform)) := by
            rw [List.flatMap_cons]
            exact (List.sublist_append_left _ _).append_left _
          constructor
          · rintro ⟨-, b, -⟩
            exact absurd (b.sublist hsub) htf
          · intro _
            exact ⟨f, sw, List.mem_cons_self _ _, Or.inr (Or.inl
              ⟨k, hkmem, hstep, le_trans hcnt (hsub.count_le k)⟩)⟩
      · -- collision on a charm key of this feature
        obtain ⟨k, hkmem, herr, hcnt⟩ :=
          addEntries_err f "charm" sw.charms acc.charms h1 hch
        have haddf : addFeature f sw acc =
            .error (overrideMsg f "charm" k) := by
          simp [addFeature, herr]
        have hstep : assembleFeatures acc ((f, sw) :: rest) =
            .error (overrideMsg f "charm" k) := by
          simp [assembleFeatures, haddf]
        have hsub : List.Sublist (keys acc.charms ++ keys sw.charms)
            (keys acc.charms ++
              ((f, sw) :: rest).flatMap (fun p => keys p.2.charms)) := by
          rw [List.flatMap_cons]
          exact (List.sublist_append_left _ _).append_left _
        constructor
        · rintro ⟨a, -, -⟩
          exact absurd (a.sublist hsub) hch
        · intro _
          exact ⟨f, sw, List.mem_cons_self _ _, Or.inl
            ⟨k, hkmem, hstep, le_trans hcnt (hsub.count_le k)⟩⟩

/-- C2: assembling the default software configuration from feature
fragments fails with an error naming the offending feature and the
colliding key exactly when some fragment contributes a `charms`,
`terraform` or `extra` key already present in the accumulated
configuration (the key occurs at least twice across core defaults and
fragments); when every contributed key is fresh, it succeeds with the
union of the core defaults and all fragments' entries. -/
theorem get_default_collision
    (coreCharms : List (String × CharmManifest))
    (coreTerraform : List (String × TerraformManifest))
    (feats : List (String × SoftwareConfig))
    (hc : (keys coreCharms).Nodup) (ht : (keys coreTerraform).Nodup) :
    (((keys coreCharms ++ feats.flatMap (fun p => keys p.2.charms)).Nodup ∧
      (keys coreTerraform ++ feats.flatMap (fun p => keys p.2.terraform)).Nodup ∧
      (feats.flatMap (fun p => keys p.2.extra)).Nodup) →
       SoftwareConfig.get_default coreCharms coreTerraform (some feats) =
         .ok { charms := coreCharms ++ feats.flatMap (fun p => p.2.charms),
               terraform := coreTerraform ++ feats.flatMap (fun p => p.2.terraform),
               extra := feats.flatMap (fun p => p.2.extra) }) ∧
    (¬ ((keys coreCharms ++ feats.flatMap (fun p => keys p.2.charms)).Nodup ∧
        (keys coreTerraform ++ feats.flatMap (fun p => keys p.2.terraform)).Nodup ∧
        (feats.flatMap (fun p => keys p.2.extra)).Nodup) →
       ∃ f software, (f, software) ∈ feats ∧
         ((∃ k, k ∈ keys software.charms ∧
             SoftwareConfig.get_default coreCharms coreTerraform (some feats) =
               .error (overrideMsg f "charm" k) ∧
             2 ≤ (keys coreCharms ++
                   feats.flatMap (fun p => keys p.2.charms)).count k) ∨
          (∃ k, k ∈ keys software.terraform ∧
             SoftwareConfig.get_default coreCharms coreTerraform (some feats) =
               .error (overrideMsg f "tfplan" k) ∧
             2 ≤ (keys coreTerraform ++
                   feats.flatMap (fun p => keys p.2.terraform)).count k) ∨
          (∃ k, k ∈ keys software.extra ∧
             SoftwareConfig.get_default coreCharms coreTerraform (some feats) =
               .error (overrideMsg f "extra key" k) ∧
             2 ≤ (feats.flatMap (fun p => keys p.2.extra)).count k))) := by
  have hspec := assembleFeatures_spec feats ⟨coreCharms, coreTerraform, []⟩
    hc ht (by simp [keys])
  constructor
  · intro hnd
    have hok := hspec.1 ⟨hnd.1, hnd.2.1, by simpa [keys] using hnd.2.2⟩
    simp [SoftwareConfig.get_default, hok]
  · intro hnot
    have hnot' : ¬ ((keys coreCharms ++
          feats.flatMap (fun p => keys p.2.charms)).Nodup ∧
        (keys coreTerraform ++ feats.flatMap (fun p => keys p.2.terraform)).Nodup ∧
        (keys ([] : List (String × Value)) ++
          feats.flatMap (fun p => keys p.2.extra)).Nodup) := by
      rintro ⟨a, b, c⟩
      exact hnot ⟨a, b, by simpa [keys] using c⟩
    obtain ⟨f, sw, hmem, hdisj⟩ := hspec.2 hnot'
    refine ⟨f, sw, hmem, ?_⟩
    rcases hdisj with ⟨k, hk, herr, hcnt⟩ | ⟨k, hk, herr, hcnt⟩ |
      ⟨k, hk, herr, hcnt⟩
    · exact Or.inl ⟨k, hk, by simp [SoftwareConfig.get_default, herr], hcnt⟩
    · exact Or.inr (Or.inl ⟨k, hk,
        by simp [SoftwareConfig.get_default, herr], hcnt⟩)
    · exact Or.inr (Or.inr ⟨k, hk,
        by simp [SoftwareConfig.get_default, herr], by simpa [keys] using hcnt⟩)

theorem get_default_collision_witness :
    (SoftwareConfig.get_default
         [("keystone", { channel := some "2024.1/stable" })]
         [("openstack-plan", ⟨"/snap/etc/deploy-openstack"⟩)]
         (some [("caas",
           { charms := [("magnum-k8s", { channel := some "2024.1/stable" })],
             extra := [("caas_config", Value.map [])] })]) =
       .ok { charms := [("keystone", { channel := some "2024.1/stable" }),
                        ("magnum-k8s", { channel := some "2024.1/stable" })],
             terraform := [("openstack-plan", ⟨"/snap/etc/deploy-openstack"⟩)],
             extra := [("caas_config", Value.map [])] }) :=
  (get_default_collision
      [("keystone", { channel := some "2024.1/stable" })]
      [("openstack-plan", ⟨"/snap/etc/deploy-openstack"⟩)]
      [("caas",
        { charms := [("magnum-k8s", { channel := some "2024.1/stable" })],
          extra := [("caas_config", Value.map [])] })]
      (by decide) (by decide)).1 ⟨by decide, by decide, by decide⟩

end Sunbeam
